import Mathlib

/-!
The iterator binding of node-leveldb (`src/binding/Iterator.cc`).

A shallow embedding of the cursor binding.  The binding wraps a
`leveldb::Iterator*` (the field `it`, `NULL` once released), exposes nine
script-visible methods, and runs the three positioning calls through
`eio_custom`: a worker step (`EIO_SeekToFirst`, `EIO_SeekToLast`, `EIO_Seek`)
followed by a completion step (`EIO_AfterSeek`).

The engine iterator is an abstract class in the source; here it is the record
`Engine E` of its virtual methods over an arbitrary state type `E`.  Effects
that the claims speak about (engine calls, scheduled tasks, allocated
`SeekParams`, handler invocations) are recorded in explicit logs of `World`.
-/

namespace NodeLeveldb

/-- Byte strings: the contents of a `leveldb::Slice` or a `std::string`. -/
abbrev Bytes := List Nat

/-- The outcome carried by a `leveldb::Status`: ok, or an error with its diagnostic. -/
inductive Status where
  | ok
  | error (msg : String)
  deriving DecidableEq, Repr

/-- Script values that cross the boundary of the binding. -/
inductive JsValue where
  | undefined
  | null
  | boolean (b : Bool)
  | string (s : String)
  | buffer (b : Bytes)
  | function (id : Nat)
  deriving DecidableEq, Repr

/-- What a binding method hands back: a value, or a thrown error with its message. -/
abbrev Result := Except String JsValue

/-- The virtual interface of `leveldb::Iterator` as `Iterator.cc` uses it.
`Valid`, `key`, `value` and `status` are `const` methods: they return a value
and no new iterator state. -/
structure Engine (E : Type) where
  Valid : E → Bool
  SeekToFirst : E → E
  SeekToLast : E → E
  Seek : Bytes → E → E
  Next : E → E
  Prev : E → E
  key : E → Bytes
  value : E → Bytes
  status : E → Status

/-- One call made on the engine iterator object, `delete it` included. -/
inductive EngineCall where
  | Valid
  | SeekToFirst
  | SeekToLast
  | Seek (target : Bytes)
  | Next
  | Prev
  | key
  | value
  | status
  | delete
  deriving DecidableEq, Repr

/-- Declarations the source includes from `helpers.h` and `Iterator.h`, which
are not part of the source tree at hand; they are parameters of the model.
`JsToSlice` marshals an argument into a slice, `processStatus` turns an engine
status into the script-visible result of `status()`, and `defaultResult` is the
default argument of `SeekParams::Callback(Handle<Value> result)` that
`EIO_AfterSeek` relies on when it calls `params->Callback()` (`none` is the
empty handle). -/
structure Decls where
  JsToSlice : JsValue → Bytes
  processStatus : Status → Result
  defaultResult : Option JsValue

/-- The C++ object `Iterator`: the engine iterator pointer `it` (`none` is
`NULL`) and the persistent handle `db` (`none` once disposed). -/
structure Iterator (E : Type) where
  it : Option E
  db : Option JsValue

/-- The record `SeekParams` of one positioning request.  The pointer `self` is
the cursor of the enclosing `World`; `callback` is a handle, `none` when empty. -/
structure SeekParams where
  key : Bytes
  callback : Option JsValue
  deriving DecidableEq, Repr

/-- The `execute` function handed to `eio_custom`. -/
inductive Execute where
  | EIO_SeekToFirst
  | EIO_SeekToLast
  | EIO_Seek
  deriving DecidableEq, Repr

/-- One request made by `eio_custom(execute, EIO_PRI_DEFAULT, EIO_AfterSeek, params)`. -/
structure Task where
  execute : Execute
  params : SeekParams
  deriving DecidableEq, Repr

/-- One invocation `callback->Call(self->handle_, argc, argv)` of a handler. -/
structure Invocation where
  callee : JsValue
  argv : List JsValue
  deriving DecidableEq, Repr

/-- The cursor together with everything around it that the binding acts on:
the log of engine calls, the requests waiting for a worker (`pending`), the
requests whose worker step is over and whose completion step is due (`done`),
the counts of `new SeekParams` and `delete params`, and the log of handler
invocations. -/
structure World (E : Type) where
  self : Iterator E
  calls : List EngineCall
  pending : List Task
  done : List Task
  paramsNew : Nat
  paramsDeleted : Nat
  invoked : List Invocation

/-- What can go wrong in a step of the scheduler model. -/
inductive Fault where
  | nullDeref
  | noSuchTask
  deriving DecidableEq, Repr

/-- The message of `CHECK_VALID_STATE`. -/
def illegalState : String := "Illegal state: iterator has been closed"

/-- Helper `ThrowError(msg)`: the call returns with an error carrying `msg`. -/
def ThrowError (msg : String) : Result := Except.error msg

/-- Modelled from the spec: `Bufferize` of helpers.h, absent from the source
tree, which converts a byte string back to a host buffer value. -/
def Bufferize (s : Bytes) : JsValue := JsValue.buffer s

/-- Argument access `args[i]`: the i-th argument, `Undefined()` past the end. -/
def arg (args : List JsValue) (i : Nat) : JsValue := args.getD i JsValue.undefined

/-- Record a call on the engine iterator. -/
def World.logCall {E : Type} (w : World E) (c : EngineCall) : World E :=
  { w with calls := w.calls ++ [c] }

/-- Constructor `Iterator::Iterator()`: the pointer starts out `NULL`. -/
def Iterator.ctor {E : Type} : Iterator E := { it := none, db := none }

/-- Source function `Iterator::New`: wrap the external engine iterator `args[0]` and keep a
persistent handle on the database object `args[1]`. -/
def New {E : Type} (external : Option E) (db : JsValue) : World E :=
  { self := { (Iterator.ctor : Iterator E) with it := external, db := some db },
    calls := [], pending := [], done := [], paramsNew := 0, paramsDeleted := 0,
    invoked := [] }

/-- Source function `Iterator::Close`: release the engine iterator if there is one. -/
def Close {E : Type} (w : World E) : World E :=
  match w.self.it with
  | some _ => { w with self := { w.self with it := none },
                       calls := w.calls ++ [EngineCall.delete] }
  | none => w

/-- Destructor `Iterator::~Iterator`: release the engine iterator if there is one, then
dispose of the database handle. -/
def dtor {E : Type} (w : World E) : World E :=
  let w1 : World E :=
    match w.self.it with
    | some _ => { w with self := { w.self with it := none },
                         calls := w.calls ++ [EngineCall.delete] }
    | none => w
  { w1 with self := { w1.self with db := none } }

/-- Modelled from the spec: `eio_custom` queues one request for the worker
pool; the scheduler (libeio) is not under src/.  A positioning call
"schedules execution on a worker" and "on worker completion, enqueues a
completion notification back onto the caller's execution context". -/
def eio_custom {E : Type} (execute : Execute) (params : SeekParams) (w : World E) : World E :=
  { w with pending := w.pending ++ [{ execute := execute, params := params }] }

/-- Allocation `new SeekParams(self, key, callback)`; the constructor is declared in
`Iterator.h` and keeps its arguments (the spec: the call "captures the cursor
reference and (for Seek) the target key as an immutable byte copy"). -/
def newSeekParams {E : Type} (key : Bytes) (callback : JsValue) (w : World E) :
    SeekParams × World E :=
  ({ key := key, callback := some callback }, { w with paramsNew := w.paramsNew + 1 })

/-- Source function `Iterator::Valid`. -/
def Valid {E : Type} (eng : Engine E) (w : World E) (_args : List JsValue) : Result × World E :=
  match w.self.it with
  | none => (ThrowError illegalState, w)
  | some e => (Except.ok (JsValue.boolean (eng.Valid e)), w.logCall EngineCall.Valid)

/-- Source function `Iterator::EIO_BeforeSeekToFirst`. -/
def EIO_BeforeSeekToFirst {E : Type} (params : SeekParams) (w : World E) : World E :=
  eio_custom Execute.EIO_SeekToFirst params w

/-- Source function `Iterator::SeekToFirst`. -/
def SeekToFirst {E : Type} (w : World E) (args : List JsValue) : Result × World E :=
  match w.self.it with
  | none => (ThrowError illegalState, w)
  | some _ =>
    let callback := arg args 0
    let (params, w1) := newSeekParams [] callback w
    (Except.ok JsValue.undefined, EIO_BeforeSeekToFirst params w1)

/-- Source function `Iterator::EIO_BeforeSeekToLast`. -/
def EIO_BeforeSeekToLast {E : Type} (params : SeekParams) (w : World E) : World E :=
  eio_custom Execute.EIO_SeekToLast params w

/-- Source function `Iterator::SeekToLast`. -/
def SeekToLast {E : Type} (w : World E) (args : List JsValue) : Result × World E :=
  match w.self.it with
  | none => (ThrowError illegalState, w)
  | some _ =>
    let callback := arg args 0
    let (params, w1) := newSeekParams [] callback w
    (Except.ok JsValue.undefined, EIO_BeforeSeekToLast params w1)

/-- Source function `Iterator::EIO_BeforeSeek`. -/
def EIO_BeforeSeek {E : Type} (params : SeekParams) (w : World E) : World E :=
  eio_custom Execute.EIO_Seek params w

/-- Source function `Iterator::Seek`. -/
def Seek {E : Type} (d : Decls) (w : World E) (args : List JsValue) : Result × World E :=
  match w.self.it with
  | none => (ThrowError illegalState, w)
  | some _ =>
    let key := d.JsToSlice (arg args 0)
    let callback := arg args 1
    let (params, w1) := newSeekParams key callback w
    (Except.ok JsValue.undefined, EIO_BeforeSeek params w1)

/-- Source function `Iterator::EIO_SeekToFirst`, the worker step: `self->it->SeekToFirst()`
with no test of `it`. -/
def EIO_SeekToFirst {E : Type} (eng : Engine E) (_params : SeekParams) (w : World E) :
    Except Fault (World E) :=
  match w.self.it with
  | none => Except.error Fault.nullDeref
  | some e => Except.ok
      { w with self := { w.self with it := some (eng.SeekToFirst e) },
               calls := w.calls ++ [EngineCall.SeekToFirst] }

/-- Source function `Iterator::EIO_SeekToLast`, the worker step: `self->it->SeekToLast()`
with no test of `it`. -/
def EIO_SeekToLast {E : Type} (eng : Engine E) (_params : SeekParams) (w : World E) :
    Except Fault (World E) :=
  match w.self.it with
  | none => Except.error Fault.nullDeref
  | some e => Except.ok
      { w with self := { w.self with it := some (eng.SeekToLast e) },
               calls := w.calls ++ [EngineCall.SeekToLast] }

/-- Source function `Iterator::EIO_Seek`, the worker step: `self->it->Seek(params->key)`
with no test of `it`. -/
def EIO_Seek {E : Type} (eng : Engine E) (params : SeekParams) (w : World E) :
    Except Fault (World E) :=
  match w.self.it with
  | none => Except.error Fault.nullDeref
  | some e => Except.ok
      { w with self := { w.self with it := some (eng.Seek params.key e) },
               calls := w.calls ++ [EngineCall.Seek params.key] }

/-- Source function `Iterator::SeekParams::Callback(result)`: nothing when the handle is empty;
otherwise one call of the handler, with no arguments when `result` is empty and
with `(undefined, result)` when it is not. -/
def SeekParams.Callback {E : Type} (params : SeekParams) (result : Option JsValue)
    (w : World E) : World E :=
  match params.callback with
  | none => w
  | some callback =>
    match result with
    | none => { w with invoked := w.invoked ++ [{ callee := callback, argv := [] }] }
    | some r =>
      { w with invoked := w.invoked ++ [{ callee := callback, argv := [JsValue.undefined, r] }] }

/-- Source function `Iterator::EIO_AfterSeek`, the completion step: `params->Callback()` and
`delete params`. -/
def EIO_AfterSeek {E : Type} (d : Decls) (params : SeekParams) (w : World E) : World E :=
  let w1 := params.Callback d.defaultResult w
  { w1 with paramsDeleted := w1.paramsDeleted + 1 }

/-- Source function `Iterator::Next`. -/
def Next {E : Type} (eng : Engine E) (w : World E) (_args : List JsValue) : Result × World E :=
  match w.self.it with
  | none => (ThrowError illegalState, w)
  | some e =>
    (Except.ok JsValue.undefined,
     { w with self := { w.self with it := some (eng.Next e) },
              calls := w.calls ++ [EngineCall.Next] })

/-- Source function `Iterator::Prev`. -/
def Prev {E : Type} (eng : Engine E) (w : World E) (_args : List JsValue) : Result × World E :=
  match w.self.it with
  | none => (ThrowError illegalState, w)
  | some e =>
    (Except.ok JsValue.undefined,
     { w with self := { w.self with it := some (eng.Prev e) },
              calls := w.calls ++ [EngineCall.Prev] })

/-- Source function `Iterator::key`. -/
def key {E : Type} (eng : Engine E) (w : World E) (_args : List JsValue) : Result × World E :=
  match w.self.it with
  | none => (ThrowError illegalState, w)
  | some e =>
    if !eng.Valid e then
      (Except.ok JsValue.null, w.logCall EngineCall.Valid)
    else
      (Except.ok (Bufferize (eng.key e)),
       (w.logCall EngineCall.Valid).logCall EngineCall.key)

/-- Source function `Iterator::value`. -/
def value {E : Type} (eng : Engine E) (w : World E) (_args : List JsValue) : Result × World E :=
  match w.self.it with
  | none => (ThrowError illegalState, w)
  | some e =>
    if !eng.Valid e then
      (Except.ok JsValue.null, w.logCall EngineCall.Valid)
    else
      (Except.ok (Bufferize (eng.value e)),
       (w.logCall EngineCall.Valid).logCall EngineCall.value)

/-- Source function `Iterator::status`. -/
def status {E : Type} (eng : Engine E) (d : Decls) (w : World E) (_args : List JsValue) :
    Result × World E :=
  match w.self.it with
  | none => (ThrowError illegalState, w)
  | some e => (d.processStatus (eng.status e), w.logCall EngineCall.status)

/-- The prototype methods registered by `Iterator::Init`. -/
inductive Method where
  | valid
  | seekToFirst
  | seekToLast
  | seek
  | next
  | prev
  | key
  | value
  | status
  deriving DecidableEq, Repr

/-- The table of `Iterator::Init`: the function behind each prototype method. -/
def Init {E : Type} (eng : Engine E) (d : Decls) :
    Method → World E → List JsValue → Result × World E
  | Method.valid => Valid eng
  | Method.seekToFirst => SeekToFirst
  | Method.seekToLast => SeekToLast
  | Method.seek => Seek d
  | Method.next => Next eng
  | Method.prev => Prev eng
  | Method.key => key eng
  | Method.value => value eng
  | Method.status => status eng d

/-- Run the `execute` function of a request. -/
def Execute.run {E : Type} (eng : Engine E) :
    Execute → SeekParams → World E → Except Fault (World E)
  | Execute.EIO_SeekToFirst => NodeLeveldb.EIO_SeekToFirst eng
  | Execute.EIO_SeekToLast => NodeLeveldb.EIO_SeekToLast eng
  | Execute.EIO_Seek => NodeLeveldb.EIO_Seek eng

/-- A worker takes the `i`-th waiting request, runs its `execute` function and
hands the request over for completion. -/
def workerStep {E : Type} (eng : Engine E) (i : Nat) (w : World E) : Except Fault (World E) :=
  match w.pending[i]? with
  | none => Except.error Fault.noSuchTask
  | some t =>
    match t.execute.run eng t.params { w with pending := w.pending.eraseIdx i } with
    | Except.error f => Except.error f
    | Except.ok w1 => Except.ok { w1 with done := w1.done ++ [t] }

/-- The caller's thread takes the `i`-th request whose worker step is over and
runs its `finish` function, which is `EIO_AfterSeek` for every request. -/
def completionStep {E : Type} (d : Decls) (i : Nat) (w : World E) : Except Fault (World E) :=
  match w.done[i]? with
  | none => Except.error Fault.noSuchTask
  | some t => Except.ok (EIO_AfterSeek d t.params { w with done := w.done.eraseIdx i })

/-- The steps of the system around one cursor. -/
inductive Action where
  | call (m : Method) (args : List JsValue)
  | close
  | work (i : Nat)
  | complete (i : Nat)
  deriving DecidableEq, Repr

/-- One step of the system. -/
def step {E : Type} (eng : Engine E) (d : Decls) (a : Action) (w : World E) :
    Except Fault (World E) :=
  match a with
  | Action.call m args => Except.ok (Init eng d m w args).2
  | Action.close => Except.ok (Close w)
  | Action.work i => workerStep eng i w
  | Action.complete i => completionStep d i w

/-- Run a sequence of steps, stopping at the first fault. -/
def run {E : Type} (eng : Engine E) (d : Decls) : List Action → World E → Except Fault (World E)
  | [], w => Except.ok w
  | a :: rest, w =>
    match step eng d a w with
    | Except.error f => Except.error f
    | Except.ok w1 => run eng d rest w1

/-- Calling `Close()` `n` times in a row. -/
def closeTimes {E : Type} : Nat → World E → World E
  | 0, w => w
  | n + 1, w => closeTimes n (Close w)

/-- The error slot of a handler invocation: its first argument, `undefined`
when the handler is called with no arguments. -/
def Invocation.errorSlot (i : Invocation) : JsValue := i.argv.getD 0 JsValue.undefined

/-- The three asynchronous positioning calls. -/
inductive Positioning where
  | seekToFirst
  | seekToLast
  | seek
  deriving DecidableEq, Repr

/-- The prototype method of a positioning call. -/
def Positioning.method : Positioning → Method
  | Positioning.seekToFirst => Method.seekToFirst
  | Positioning.seekToLast => Method.seekToLast
  | Positioning.seek => Method.seek

/-- The completion handler of a positioning call: `args[0]` for `seekToFirst`
and `seekToLast`, `args[1]` for `seek`. -/
def Positioning.handler : Positioning → List JsValue → JsValue
  | Positioning.seekToFirst, args => arg args 0
  | Positioning.seekToLast, args => arg args 0
  | Positioning.seek, args => arg args 1

/-- The request that a positioning call hands to `eio_custom`. -/
def Positioning.task (d : Decls) : Positioning → List JsValue → Task
  | Positioning.seekToFirst, args =>
    { execute := Execute.EIO_SeekToFirst, params := { key := [], callback := some (arg args 0) } }
  | Positioning.seekToLast, args =>
    { execute := Execute.EIO_SeekToLast, params := { key := [], callback := some (arg args 0) } }
  | Positioning.seek, args =>
    { execute := Execute.EIO_Seek,
      params := { key := d.JsToSlice (arg args 0), callback := some (arg args 1) } }

/-- The engine operation that the worker step of a positioning call performs. -/
def Positioning.move {E : Type} (eng : Engine E) (d : Decls) :
    Positioning → List JsValue → E → E
  | Positioning.seekToFirst, _ => eng.SeekToFirst
  | Positioning.seekToLast, _ => eng.SeekToLast
  | Positioning.seek, args => eng.Seek (d.JsToSlice (arg args 0))

/-- The steps that are allowed to change the cursor: `next`, `prev`, `Close()`
and the worker step of a positioning call. -/
def Action.mayMove : Action → Bool
  | Action.call Method.next _ => true
  | Action.call Method.prev _ => true
  | Action.close => true
  | Action.work _ => true
  | _ => false

/-- Modelled from the spec: the key order of the store, which belongs to the
engine and is not under src/ ("byte-range comparison consistent with the
store's configured key ordering (default: lexicographic over raw bytes)"). -/
def Slice.compare : Bytes → Bytes → Ordering
  | [], [] => Ordering.eq
  | [], _ :: _ => Ordering.lt
  | _ :: _, [] => Ordering.gt
  | a :: as, b :: bs =>
    if a < b then Ordering.lt
    else if b < a then Ordering.gt
    else Slice.compare as bs

/-- The order `a ≤ b` on byte strings. -/
def Slice.le (a b : Bytes) : Bool :=
  match Slice.compare a b with
  | Ordering.gt => false
  | _ => true

/-- The strict order `a < b` on byte strings. -/
def Slice.lt (a b : Bytes) : Bool :=
  match Slice.compare a b with
  | Ordering.lt => true
  | _ => false

/-- Modelled from the spec: the state of the engine cursor, whose
implementation is not under src/.  It holds the entries of its snapshot in key
order and a position that is either unset or invalid (`none`) or at an entry. -/
structure SnapshotIter where
  entries : List (Bytes × Bytes)
  pos : Option (Bytes × Bytes)
  deriving DecidableEq, Repr

/-- The keys of a snapshot are in strictly increasing order. -/
def SnapshotIter.Ordered (entries : List (Bytes × Bytes)) : Prop :=
  entries.Pairwise (fun a b => Slice.lt a.1 b.1 = true)

instance : DecidablePred SnapshotIter.Ordered :=
  fun entries => inferInstanceAs (Decidable (entries.Pairwise _))

/-- Modelled from the spec: the engine cursor of section 4.1, whose
implementation is not under src/.  `SeekToFirst` "positions at the smallest key
in the snapshot (or invalid if the store is empty)", `SeekToLast` "positions at
the largest key", `Seek(target)` "positions at the smallest key ≥ target
(forward bias); if no such key exists, position becomes invalid", `Next`
"advances to the next-larger key, or invalid if none", `Prev` is symmetric, and
the end of the range is "Valid()==false with Status()==ok".  `Next` and `Prev`
on an invalid cursor, which the spec leaves undefined, keep it invalid. -/
def snapshotEngine : Engine SnapshotIter where
  Valid e := e.pos.isSome
  SeekToFirst e := { e with pos := e.entries.head? }
  SeekToLast e := { e with pos := e.entries.getLast? }
  Seek target e := { e with pos := e.entries.find? (fun kv => Slice.le target kv.1) }
  Next e :=
    match e.pos with
    | none => e
    | some cur => { e with pos := e.entries.find? (fun kv => Slice.lt cur.1 kv.1) }
  Prev e :=
    match e.pos with
    | none => e
    | some cur => { e with pos := (e.entries.filter (fun kv => Slice.lt kv.1 cur.1)).getLast? }
  key e :=
    match e.pos with
    | none => []
    | some cur => cur.1
  value e :=
    match e.pos with
    | none => []
    | some cur => cur.2
  status _ := Status.ok

/-- The state of an engine cursor over storage that cannot be read: the
diagnostic of the storage error and whether a positioning call has hit it. -/
structure FailingIter where
  diagnostic : String
  failed : Bool
  deriving DecidableEq, Repr

/-- An engine cursor whose every positioning call hits a storage error: it is
never valid and, once positioned, its status is the error. -/
def failingEngine : Engine FailingIter where
  Valid _ := false
  SeekToFirst e := { e with failed := true }
  SeekToLast e := { e with failed := true }
  Seek _ e := { e with failed := true }
  Next e := { e with failed := true }
  Prev e := { e with failed := true }
  key _ := []
  value _ := []
  status e := if e.failed then Status.error e.diagnostic else Status.ok

/-- A sample of the header declarations: buffers are marshalled to their bytes
and strings to their UTF-8 bytes, an ok status is reported as the string "OK"
and an error status is thrown, and `Callback()` defaults to the empty handle. -/
def sampleDecls : Decls where
  JsToSlice
    | JsValue.buffer b => b
    | JsValue.string s => s.toUTF8.toList.map UInt8.toNat
    | _ => []
  processStatus
    | Status.ok => Except.ok (JsValue.string "OK")
    | Status.error msg => Except.error msg
  defaultResult := none

/-- The store of the spec's scenario: "a" ↦ "1", "b" ↦ "2", "c" ↦ "3". -/
def abcEntries : List (Bytes × Bytes) := [([97], [49]), ([98], [50]), ([99], [51])]

/-- A freshly created engine cursor over `abcEntries`: its position is unset. -/
def abcIter : SnapshotIter := { entries := abcEntries, pos := none }

/-- A cursor object wrapping `abcIter`. -/
def abcWorld : World SnapshotIter := New (some abcIter) (JsValue.string "db")

/-- A cursor object wrapping an engine cursor over unreadable storage. -/
def failingWorld : World FailingIter :=
  New (some { diagnostic := "IO error: block read failed", failed := false })
    (JsValue.string "db")

end NodeLeveldb

namespace NodeLeveldb

/-! ## The closed cursor -/

/-- C1: on a cursor whose engine iterator has been released (`it == NULL`),
each of valid, seekToFirst, seekToLast, seek, next, prev, key, value and status
returns the error "Illegal state: iterator has been closed" and leaves the
whole world as it was; in particular no call reaches the engine iterator. -/
theorem closed_cursor_rejects_every_method {E : Type} (eng : Engine E) (d : Decls)
    (m : Method) (w : World E) (args : List JsValue) (hclosed : w.self.it = none) :
    (Init eng d m w args).1 = Except.error "Illegal state: iterator has been closed" ∧
    (Init eng d m w args).2.calls = w.calls ∧
    (Init eng d m w args).2.self.it = none ∧
    (Init eng d m w args).2 = w := by
  cases m <;>
    simp [Init, Valid, SeekToFirst, SeekToLast, Seek, Next, Prev, key, value, status,
      hclosed, ThrowError, illegalState]

theorem closed_cursor_rejects_every_method_witness :
    (Close abcWorld).self.it = none ∧
    (Init snapshotEngine sampleDecls Method.next (Close abcWorld) []).1
      = Except.error "Illegal state: iterator has been closed" ∧
    (Init snapshotEngine sampleDecls Method.next (Close abcWorld) []).2.calls
      = (Close abcWorld).calls :=
  ⟨rfl,
   (closed_cursor_rejects_every_method snapshotEngine sampleDecls Method.next
      (Close abcWorld) [] rfl).1,
   (closed_cursor_rejects_every_method snapshotEngine sampleDecls Method.next
      (Close abcWorld) [] rfl).2.1⟩

/-- C10: a seekToFirst, seekToLast or seek call on a closed cursor returns the
IllegalState error from the call itself; no request is queued for a worker, no
`SeekParams` is allocated, no handler is invoked, and whatever steps follow run
exactly as if the call had not been made, so the handler is never invoked on
its behalf. -/
theorem closed_positioning_fails_synchronously {E : Type} (eng : Engine E) (d : Decls)
    (p : Positioning) (w : World E) (args : List JsValue) (hclosed : w.self.it = none) :
    (Init eng d p.method w args).1 = Except.error illegalState ∧
    (Init eng d p.method w args).2.pending = w.pending ∧
    (Init eng d p.method w args).2.done = w.done ∧
    (Init eng d p.method w args).2.paramsNew = w.paramsNew ∧
    (Init eng d p.method w args).2.invoked = w.invoked ∧
    ∀ later : List Action,
      run eng d later (Init eng d p.method w args).2 = run eng d later w := by
  have hw : (Init eng d p.method w args).2 = w := by
    cases p <;> simp [Init, Positioning.method, SeekToFirst, SeekToLast, Seek, hclosed]
  have hr : (Init eng d p.method w args).1 = Except.error illegalState := by
    cases p <;>
      simp [Init, Positioning.method, SeekToFirst, SeekToLast, Seek, hclosed, ThrowError]
  refine ⟨hr, ?_, ?_, ?_, ?_, ?_⟩ <;> simp [hw]

theorem closed_positioning_fails_synchronously_witness :
    (Close abcWorld).self.it = none ∧
    (Init snapshotEngine sampleDecls Method.seek (Close abcWorld)
        [JsValue.buffer [98], JsValue.function 7]).1 = Except.error illegalState ∧
    (Init snapshotEngine sampleDecls Method.seek (Close abcWorld)
        [JsValue.buffer [98], JsValue.function 7]).2.pending = [] :=
  ⟨rfl,
   (closed_positioning_fails_synchronously snapshotEngine sampleDecls Positioning.seek
      (Close abcWorld) [JsValue.buffer [98], JsValue.function 7] rfl).1,
   (closed_positioning_fails_synchronously snapshotEngine sampleDecls Positioning.seek
      (Close abcWorld) [JsValue.buffer [98], JsValue.function 7] rfl).2.1⟩

/-! ## Reading the cursor -/

theorem Valid_self {E : Type} (eng : Engine E) (w : World E) (args : List JsValue) :
    (Valid eng w args).2.self = w.self := by
  unfold Valid; split <;> rfl

theorem key_self {E : Type} (eng : Engine E) (w : World E) (args : List JsValue) :
    (key eng w args).2.self = w.self := by
  unfold key; split
  · rfl
  · split <;> rfl

theorem value_self {E : Type} (eng : Engine E) (w : World E) (args : List JsValue) :
    (value eng w args).2.self = w.self := by
  unfold value; split
  · rfl
  · split <;> rfl

theorem status_self {E : Type} (eng : Engine E) (d : Decls) (w : World E)
    (args : List JsValue) : (status eng d w args).2.self = w.self := by
  unfold status; split <;> rfl

theorem SeekToFirst_self {E : Type} (w : World E) (args : List JsValue) :
    (SeekToFirst w args).2.self = w.self := by
  unfold SeekToFirst; split <;> rfl

theorem SeekToLast_self {E : Type} (w : World E) (args : List JsValue) :
    (SeekToLast w args).2.self = w.self := by
  unfold SeekToLast; split <;> rfl

theorem Seek_self {E : Type} (d : Decls) (w : World E) (args : List JsValue) :
    (Seek d w args).2.self = w.self := by
  unfold Seek; split <;> rfl

theorem EIO_AfterSeek_self {E : Type} (d : Decls) (params : SeekParams) (w : World E) :
    (EIO_AfterSeek d params w).self = w.self := by
  simp only [EIO_AfterSeek, SeekParams.Callback]
  cases params.callback <;> cases d.defaultResult <;> rfl

/-- C9: valid(), key(), value() and status() leave the cursor object, that is
its position and whether it is open or closed, unchanged, in every state; a
step that does change the cursor is next, prev, Close() or the worker step of
a seekToFirst, seekToLast or seek. -/
theorem queries_leave_cursor_unchanged {E : Type} (eng : Engine E) (d : Decls)
    (w : World E) (args : List JsValue) :
    (Valid eng w args).2.self = w.self ∧
    (key eng w args).2.self = w.self ∧
    (value eng w args).2.self = w.self ∧
    (status eng d w args).2.self = w.self ∧
    ∀ (a : Action) (w1 : World E),
      step eng d a w = Except.ok w1 → w1.self ≠ w.self → a.mayMove = true := by
  refine ⟨Valid_self eng w args, key_self eng w args, value_self eng w args,
    status_self eng d w args, ?_⟩
  intro a w1 hstep hne
  cases a with
  | close => rfl
  | work i => rfl
  | complete i =>
    exfalso; apply hne
    simp only [step, completionStep] at hstep
    cases hget : w.done[i]? with
    | none => simp [hget] at hstep
    | some t =>
      simp only [hget, Except.ok.injEq] at hstep
      subst hstep
      exact EIO_AfterSeek_self d t.params _
  | call m args1 =>
    simp only [step, Except.ok.injEq] at hstep
    subst hstep
    cases m with
    | next => rfl
    | prev => rfl
    | valid => exact absurd (Valid_self eng w args1) hne
    | key => exact absurd (key_self eng w args1) hne
    | value => exact absurd (value_self eng w args1) hne
    | status => exact absurd (status_self eng d w args1) hne
    | seekToFirst => exact absurd (SeekToFirst_self w args1) hne
    | seekToLast => exact absurd (SeekToLast_self w args1) hne
    | seek => exact absurd (Seek_self d w args1) hne

theorem queries_leave_cursor_unchanged_witness :
    (Valid snapshotEngine abcWorld []).2.self = abcWorld.self ∧
    (step snapshotEngine sampleDecls Action.close abcWorld = Except.ok (Close abcWorld) →
      (Close abcWorld).self ≠ abcWorld.self → Action.close.mayMove = true) :=
  ⟨(queries_leave_cursor_unchanged snapshotEngine sampleDecls abcWorld []).1,
   (queries_leave_cursor_unchanged snapshotEngine sampleDecls abcWorld []).2.2.2.2
      Action.close (Close abcWorld)⟩

/-- C3: on an open cursor, key() returns null, as an ordinary result and not
as an error, exactly when the engine iterator's Valid() is false, and otherwise
returns a buffer holding the bytes of the engine iterator's current key;
value() does the same with the current value. -/
theorem key_value_null_iff_invalid {E : Type} (eng : Engine E) (w : World E)
    (args : List JsValue) (e : E) (hopen : w.self.it = some e) :
    ((key eng w args).1 = Except.ok JsValue.null ↔ eng.Valid e = false) ∧
    (eng.Valid e = true → (key eng w args).1 = Except.ok (JsValue.buffer (eng.key e))) ∧
    ((value eng w args).1 = Except.ok JsValue.null ↔ eng.Valid e = false) ∧
    (eng.Valid e = true →
      (value eng w args).1 = Except.ok (JsValue.buffer (eng.value e))) := by
  cases hv : eng.Valid e <;> simp [key, value, hopen, hv, Bufferize]

theorem key_value_null_iff_invalid_witness :
    abcWorld.self.it = some abcIter ∧
    ((key snapshotEngine abcWorld []).1 = Except.ok JsValue.null ↔
      snapshotEngine.Valid abcIter = false) :=
  ⟨rfl, (key_value_null_iff_invalid snapshotEngine abcWorld [] abcIter rfl).1⟩

/-! ## Releasing the engine iterator -/

theorem Close_of_closed {E : Type} (w : World E) (h : w.self.it = none) : Close w = w := by
  simp [Close, h]

theorem Close_it {E : Type} (w : World E) : (Close w).self.it = none := by
  unfold Close; split
  · rfl
  · assumption

theorem closeTimes_of_closed {E : Type} (n : Nat) (w : World E) (h : w.self.it = none) :
    closeTimes n w = w := by
  induction n with
  | zero => rfl
  | succ k ih => simp [closeTimes, Close_of_closed w h, ih]

/-- C8: for a cursor that holds an engine iterator and every number `n` of
Close() calls followed by destruction, the engine iterator is released exactly
once: the log of engine calls grows by exactly one `delete`.  The first Close()
releases it and sets `it` to NULL, every later Close() and the destructor after
a Close() release nothing, and the destructor releases it when Close() was
never called. -/
theorem engine_iterator_released_exactly_once {E : Type} (w : World E) (e : E)
    (hopen : w.self.it = some e) (n : Nat) :
    (dtor (closeTimes n w)).calls = w.calls ++ [EngineCall.delete] ∧
    (dtor (closeTimes n w)).self.it = none ∧
    (Close w).calls = w.calls ++ [EngineCall.delete] ∧
    (Close w).self.it = none ∧
    closeTimes n (Close w) = Close w ∧
    (dtor (Close w)).calls = (Close w).calls ∧
    (dtor w).calls = w.calls ++ [EngineCall.delete] := by
  have hc : (Close w).calls = w.calls ++ [EngineCall.delete] := by simp [Close, hopen]
  have hd : (dtor w).calls = w.calls ++ [EngineCall.delete] := by simp [dtor, hopen]
  have hdc : (dtor (Close w)).calls = (Close w).calls := by
    simp [dtor, Close_it w]
  have hdi : ∀ v : World E, (dtor v).self.it = none := by
    intro v; unfold dtor; cases h : v.self.it <;> simp [h]
  refine ⟨?_, hdi _, hc, Close_it w, closeTimes_of_closed n _ (Close_it w), hdc, hd⟩
  cases n with
  | zero => exact hd
  | succ k =>
    rw [closeTimes, closeTimes_of_closed k _ (Close_it w), hdc, hc]

theorem engine_iterator_released_exactly_once_witness :
    abcWorld.self.it = some abcIter ∧
    (dtor (closeTimes 3 abcWorld)).calls = abcWorld.calls ++ [EngineCall.delete] :=
  ⟨rfl, (engine_iterator_released_exactly_once abcWorld abcIter rfl 3).1⟩

/-! ## Stepping an invalid cursor -/

/-- C2 (as stated, refuted): the cursor over the three-entry store is open and
freshly created, so Valid() is false, yet next() and prev() return `undefined`
with no error and the call is forwarded to the engine iterator. -/
theorem next_prev_on_invalid_cursor_forwarded :
    (Valid snapshotEngine abcWorld []).1 = Except.ok (JsValue.boolean false) ∧
    (Next snapshotEngine abcWorld []).1 = Except.ok JsValue.undefined ∧
    (Next snapshotEngine abcWorld []).1 ≠ Except.error illegalState ∧
    (Next snapshotEngine abcWorld []).2.calls = [EngineCall.Next] ∧
    (Prev snapshotEngine abcWorld []).1 = Except.ok JsValue.undefined ∧
    (Prev snapshotEngine abcWorld []).1 ≠ Except.error illegalState ∧
    (Prev snapshotEngine abcWorld []).2.calls = [EngineCall.Prev] := by
  refine ⟨rfl, rfl, ?_, rfl, rfl, ?_, rfl⟩ <;> simp [Next, Prev, abcWorld, New]

/-- C2 (amended): on every open cursor, whether the engine iterator's Valid()
is true or false, next() and prev() return `undefined` without an error and
are forwarded to the engine iterator, whose new state becomes the cursor's. -/
theorem next_prev_forwarded_when_open {E : Type} (eng : Engine E) (w : World E)
    (args : List JsValue) (e : E) (hopen : w.self.it = some e) :
    (Next eng w args).1 = Except.ok JsValue.undefined ∧
    (Next eng w args).2.self.it = some (eng.Next e) ∧
    (Next eng w args).2.calls = w.calls ++ [EngineCall.Next] ∧
    (Prev eng w args).1 = Except.ok JsValue.undefined ∧
    (Prev eng w args).2.self.it = some (eng.Prev e) ∧
    (Prev eng w args).2.calls = w.calls ++ [EngineCall.Prev] := by
  simp [Next, Prev, hopen]

theorem next_prev_forwarded_when_open_witness :
    abcWorld.self.it = some abcIter ∧
    snapshotEngine.Valid abcIter = false ∧
    (Next snapshotEngine abcWorld []).1 = Except.ok JsValue.undefined :=
  ⟨rfl, rfl, (next_prev_forwarded_when_open snapshotEngine abcWorld [] abcIter rfl).1⟩

/-! ## The asynchronous positioning calls -/

theorem getElem?_append_last {α : Type} (l : List α) (a : α) :
    (l ++ [a])[l.length]? = some a := by simp

theorem eraseIdx_append_last {α : Type} (l : List α) (a : α) :
    (l ++ [a]).eraseIdx l.length = l := by
  induction l with
  | nil => rfl
  | cons x xs ih => simp [List.eraseIdx, ih]

/-- The synchronous part of a positioning call on an open cursor: one
`SeekParams`, one request, and `undefined` as the result. -/
theorem positioning_call_open {E : Type} (eng : Engine E) (d : Decls) (p : Positioning)
    (w : World E) (args : List JsValue) (e : E) (hopen : w.self.it = some e) :
    Init eng d p.method w args =
      (Except.ok JsValue.undefined,
       { w with paramsNew := w.paramsNew + 1, pending := w.pending ++ [p.task d args] }) := by
  cases p <;>
    simp [Init, Positioning.method, Positioning.task, SeekToFirst, SeekToLast, Seek, hopen,
      newSeekParams, EIO_BeforeSeekToFirst, EIO_BeforeSeekToLast, EIO_BeforeSeek, eio_custom]

/-- The worker step of the request that a positioning call has just queued. -/
theorem worker_after_positioning_call {E : Type} (eng : Engine E) (d : Decls)
    (p : Positioning) (w : World E) (args : List JsValue) (e : E)
    (hopen : w.self.it = some e) :
    ∃ w2, workerStep eng w.pending.length (Init eng d p.method w args).2 = Except.ok w2 ∧
      w2.self.it = some (p.move eng d args e) ∧
      w2.pending = w.pending ∧
      w2.done = w.done ++ [p.task d args] ∧
      w2.invoked = w.invoked := by
  rw [positioning_call_open eng d p w args e hopen]
  cases p <;>
    simp [workerStep, getElem?_append_last, eraseIdx_append_last, Positioning.task,
      Positioning.move, Execute.run, EIO_SeekToFirst, EIO_SeekToLast, EIO_Seek, hopen]

/-- The completion step of a request that sits last in the completion queue:
its handler is invoked exactly once, with nothing in the error slot. -/
theorem completion_of_last {E : Type} (d : Decls) (w2 : World E) (rest : List Task)
    (t : Task) (handler : JsValue) (hdone : w2.done = rest ++ [t])
    (hcb : t.params.callback = some handler) :
    ∃ w3 inv, completionStep d rest.length w2 = Except.ok w3 ∧
      w3.invoked = w2.invoked ++ [inv] ∧
      inv.callee = handler ∧
      inv.errorSlot = JsValue.undefined ∧
      w3.self = w2.self ∧ w3.pending = w2.pending ∧ w3.done = rest := by
  cases hdr : d.defaultResult <;>
    simp [completionStep, hdone, getElem?_append_last, eraseIdx_append_last, EIO_AfterSeek,
      SeekParams.Callback, hcb, hdr, Invocation.errorSlot]

theorem task_callback (d : Decls) (p : Positioning) (args : List JsValue) :
    (p.task d args).params.callback = some (p.handler args) := by
  cases p <;> rfl

/-- C5: a seekToFirst, seekToLast or seek call on an open cursor returns
`undefined` and queues exactly one request, without invoking anything.  The
completion step of that request cannot run before its worker step; the worker
step repositions the engine iterator; the completion step that follows invokes
the supplied handler exactly once, with no error in its error slot, and
removes the request, so that it cannot be completed a second time. -/
theorem positioning_call_completes_exactly_once {E : Type} (eng : Engine E) (d : Decls)
    (p : Positioning) (w : World E) (args : List JsValue) (e : E)
    (hopen : w.self.it = some e) :
    (Init eng d p.method w args).1 = Except.ok JsValue.undefined ∧
    (Init eng d p.method w args).2.pending = w.pending ++ [p.task d args] ∧
    (Init eng d p.method w args).2.done = w.done ∧
    (Init eng d p.method w args).2.invoked = w.invoked ∧
    completionStep d w.done.length (Init eng d p.method w args).2
      = Except.error Fault.noSuchTask ∧
    ∃ w2 w3 inv,
      workerStep eng w.pending.length (Init eng d p.method w args).2 = Except.ok w2 ∧
      w2.self.it = some (p.move eng d args e) ∧
      w2.invoked = w.invoked ∧
      completionStep d w.done.length w2 = Except.ok w3 ∧
      w3.invoked = w.invoked ++ [inv] ∧
      inv.callee = p.handler args ∧
      inv.errorSlot = JsValue.undefined ∧
      w3.pending = w.pending ∧
      w3.done = w.done := by
  obtain ⟨w2, hw2, hit, hpend, hdone, hinv⟩ :=
    worker_after_positioning_call eng d p w args e hopen
  obtain ⟨w3, inv, hw3, hinv3, hcallee, hslot, _, hpend3, hdone3⟩ :=
    completion_of_last d w2 w.done (p.task d args) (p.handler args) hdone
      (task_callback d p args)
  refine ⟨?_, ?_, ?_, ?_, ?_, w2, w3, inv, hw2, hit, hinv, hw3, ?_, hcallee, hslot, ?_, hdone3⟩
  · rw [positioning_call_open eng d p w args e hopen]
  · rw [positioning_call_open eng d p w args e hopen]
  · rw [positioning_call_open eng d p w args e hopen]
  · rw [positioning_call_open eng d p w args e hopen]
  · rw [positioning_call_open eng d p w args e hopen]
    simp [completionStep]
  · rw [hinv3, hinv]
  · rw [hpend3, hpend]

theorem positioning_call_completes_exactly_once_witness :
    abcWorld.self.it = some abcIter ∧
    (Init snapshotEngine sampleDecls Method.seek abcWorld
        [JsValue.buffer [98, 98], JsValue.function 7]).2.pending
      = [{ execute := Execute.EIO_Seek,
           params := { key := [98, 98], callback := some (JsValue.function 7) } }] :=
  ⟨rfl,
   (positioning_call_completes_exactly_once snapshotEngine sampleDecls Positioning.seek
      abcWorld [JsValue.buffer [98, 98], JsValue.function 7] abcIter rfl).2.1⟩

/-- C4 (as stated, refuted): over storage that cannot be read, seekToFirst
followed by its worker step and its completion step leaves the engine iterator
with the status "IO error: block read failed", and status() then throws that
error, but the handler was invoked with no argument at all, so nothing was
delivered in its error slot. -/
theorem positioning_error_not_delivered_to_handler :
    (run failingEngine sampleDecls
        [Action.call Method.seekToFirst [JsValue.function 7], Action.work 0,
          Action.complete 0] failingWorld).map
      (fun w => (w.self.it.map failingEngine.status, w.invoked,
        (status failingEngine sampleDecls w []).1))
    = Except.ok
        (some (Status.error "IO error: block read failed"),
         [{ callee := JsValue.function 7, argv := [] }],
         Except.error "IO error: block read failed") := by
  rfl

/-- C4 (amended): when the positioning of a seekToFirst, seekToLast or seek
call on an open cursor leaves the engine iterator with a non-ok status, the
call, its worker step and its completion step all succeed, the handler is
invoked once with nothing in its error slot (the error is not passed to the
handler), and a subsequent status() hands exactly that error status to
`processStatus`. -/
theorem positioning_error_reported_by_status_only {E : Type} (eng : Engine E) (d : Decls)
    (p : Positioning) (w : World E) (args : List JsValue) (e : E) (msg : String)
    (hopen : w.self.it = some e)
    (herr : eng.status (p.move eng d args e) = Status.error msg) :
    ∃ w3 inv,
      run eng d [Action.call p.method args, Action.work w.pending.length,
        Action.complete w.done.length] w = Except.ok w3 ∧
      w3.invoked = w.invoked ++ [inv] ∧
      inv.callee = p.handler args ∧
      inv.errorSlot = JsValue.undefined ∧
      (status eng d w3 []).1 = d.processStatus (Status.error msg) := by
  obtain ⟨w2, hw2, hit, _, hdone, hinv⟩ :=
    worker_after_positioning_call eng d p w args e hopen
  obtain ⟨w3, inv, hw3, hinv3, hcallee, hslot, hself, _, _⟩ :=
    completion_of_last d w2 w.done (p.task d args) (p.handler args) hdone
      (task_callback d p args)
  refine ⟨w3, inv, ?_, ?_, hcallee, hslot, ?_⟩
  · simp [run, step, hw2, hw3]
  · rw [hinv3, hinv]
  · have h3 : w3.self.it = some (p.move eng d args e) := by rw [hself, hit]
    simp [status, h3, herr]

theorem positioning_error_reported_by_status_only_witness :
    failingWorld.self.it
      = some { diagnostic := "IO error: block read failed", failed := false } ∧
    ∃ w3 inv,
      run failingEngine sampleDecls
        [Action.call Method.seekToLast [JsValue.function 7], Action.work 0,
          Action.complete 0] failingWorld = Except.ok w3 ∧
      w3.invoked = [inv] ∧
      inv.callee = JsValue.function 7 ∧
      inv.errorSlot = JsValue.undefined ∧
      (status failingEngine sampleDecls w3 []).1
        = Except.error "IO error: block read failed" :=
  ⟨rfl,
   positioning_error_reported_by_status_only failingEngine sampleDecls
      Positioning.seekToLast failingWorld [JsValue.function 7]
      { diagnostic := "IO error: block read failed", failed := false }
      "IO error: block read failed" rfl rfl⟩

/-- C7 (the code at the failing input): when Close() runs between the
scheduling of a seekToFirst, seekToLast or seek call and its worker step, the
worker step dereferences the released (NULL) engine iterator. -/
theorem worker_after_close_dereferences_null :
    run snapshotEngine sampleDecls
      [Action.call Method.seekToFirst [JsValue.function 7], Action.close, Action.work 0]
      abcWorld = Except.error Fault.nullDeref ∧
    run snapshotEngine sampleDecls
      [Action.call Method.seekToLast [JsValue.function 7], Action.close, Action.work 0]
      abcWorld = Except.error Fault.nullDeref ∧
    run snapshotEngine sampleDecls
      [Action.call Method.seek [JsValue.buffer [98], JsValue.function 7], Action.close,
        Action.work 0]
      abcWorld = Except.error Fault.nullDeref :=
  ⟨rfl, rfl, rfl⟩

/-! ## Seek over the snapshot -/

theorem Slice.compare_self (a : Bytes) : Slice.compare a a = Ordering.eq := by
  induction a with
  | nil => rfl
  | cons x xs ih => simp [Slice.compare, ih]

theorem Slice.eq_of_compare_eq (a b : Bytes) (h : Slice.compare a b = Ordering.eq) :
    a = b := by
  induction a generalizing b with
  | nil => cases b with
    | nil => rfl
    | cons y ys => simp [Slice.compare] at h
  | cons x xs ih => cases b with
    | nil => simp [Slice.compare] at h
    | cons y ys =>
      simp only [Slice.compare] at h
      by_cases h1 : x < y
      · simp [h1] at h
      · by_cases h2 : y < x
        · simp [h1, h2] at h
        · simp only [h1, h2, if_false] at h
          have hxy : x = y := by omega
          rw [hxy, ih ys h]

theorem Slice.compare_swap (a b : Bytes) :
    Slice.compare b a = (Slice.compare a b).swap := by
  induction a generalizing b with
  | nil => cases b <;> rfl
  | cons x xs ih => cases b with
    | nil => rfl
    | cons y ys =>
      simp only [Slice.compare]
      by_cases h1 : x < y
      · have h2 : ¬ y < x := by omega
        simp [h1, h2, Ordering.swap]
      · by_cases h2 : y < x
        · simp [h1, h2, Ordering.swap]
        · simp [h1, h2, ih ys]

theorem Slice.le_self (a : Bytes) : Slice.le a a = true := by
  simp [Slice.le, Slice.compare_self]

theorem Slice.le_of_lt (a b : Bytes) (h : Slice.lt a b = true) : Slice.le a b = true := by
  unfold Slice.lt at h
  unfold Slice.le
  cases hc : Slice.compare a b <;> simp [hc] at h ⊢

theorem Slice.eq_of_le_of_le (a b : Bytes) (h1 : Slice.le a b = true)
    (h2 : Slice.le b a = true) : a = b := by
  apply Slice.eq_of_compare_eq
  unfold Slice.le at h1 h2
  rw [Slice.compare_swap a b] at h2
  cases hc : Slice.compare a b with
  | eq => rfl
  | lt => simp [hc, Ordering.swap] at h2
  | gt => simp [hc] at h1

/-- In a snapshot in key order, the first entry at or after the target is the
least such entry. -/
theorem find_first_is_least (T : Bytes) (entries : List (Bytes × Bytes))
    (hsorted : SnapshotIter.Ordered entries) (kv : Bytes × Bytes)
    (hfind : entries.find? (fun x => Slice.le T x.1) = some kv) :
    kv ∈ entries ∧ Slice.le T kv.1 = true ∧
    ∀ other ∈ entries, Slice.le T other.1 = true → Slice.le kv.1 other.1 = true := by
  induction entries with
  | nil => simp at hfind
  | cons x xs ih =>
    have hp := List.pairwise_cons.mp hsorted
    by_cases hx : Slice.le T x.1 = true
    · simp only [List.find?_cons, hx, Option.some.injEq] at hfind
      subst hfind
      refine ⟨List.mem_cons_self _ _, hx, ?_⟩
      intro other hmem _
      rcases List.mem_cons.mp hmem with h | h
      · rw [h]; exact Slice.le_self _
      · exact Slice.le_of_lt _ _ (hp.1 other h)
    · have hx' : Slice.le T x.1 = false := by simpa using hx
      simp only [List.find?_cons, hx'] at hfind
      obtain ⟨hm, hle, hmin⟩ := ih hp.2 hfind
      refine ⟨List.mem_cons_of_mem _ hm, hle, ?_⟩
      intro other hmem hother
      rcases List.mem_cons.mp hmem with h | h
      · rw [h, hx'] at hother; exact absurd hother (by simp)
      · exact hmin other h hother

/-- Some entry at or after the target exists exactly when the search finds one. -/
theorem find_first_isSome (T : Bytes) (entries : List (Bytes × Bytes))
    (kv : Bytes × Bytes) (hmem : kv ∈ entries) (hle : Slice.le T kv.1 = true) :
    ∃ found, entries.find? (fun x => Slice.le T x.1) = some found := by
  cases hf : entries.find? (fun x => Slice.le T x.1) with
  | some found => exact ⟨found, rfl⟩
  | none =>
    have := List.find?_eq_none.mp hf kv hmem
    simp [hle] at this

/-- The worker step of a `seek` that has just been queued on an open cursor
over a snapshot. -/
theorem worker_after_seek (d : Decls) (w : World SnapshotIter) (target handler : JsValue)
    (entries : List (Bytes × Bytes)) (pos : Option (Bytes × Bytes))
    (hopen : w.self.it = some { entries := entries, pos := pos }) :
    ∃ w2, workerStep snapshotEngine w.pending.length (Seek d w [target, handler]).2
        = Except.ok w2 ∧
      w2.calls = w.calls ++ [EngineCall.Seek (d.JsToSlice target)] ∧
      w2.self.it = some { entries := entries,
                          pos := entries.find? (fun x => Slice.le (d.JsToSlice target) x.1) } := by
  simp [Seek, hopen, newSeekParams, EIO_BeforeSeek, eio_custom, workerStep,
    getElem?_append_last, eraseIdx_append_last, Execute.run, EIO_Seek, arg, snapshotEngine]

/-- C6: on an open cursor over a store (a snapshot whose entries are in key
order) and for every target, the worker step of seek(target) passes the target
bytes to the engine's Seek unchanged, and afterwards: if the store has a key at
or after the target, Valid() is true and key() is the smallest such key; if the
target itself is a key of the store, Valid() is true and key() equals it; and
if no key is at or after the target, Valid() is false. -/
theorem seek_positions_at_smallest_key_not_before_target (d : Decls)
    (w : World SnapshotIter) (target handler : JsValue)
    (entries : List (Bytes × Bytes)) (pos : Option (Bytes × Bytes))
    (hopen : w.self.it = some { entries := entries, pos := pos })
    (hsorted : SnapshotIter.Ordered entries) :
    ∃ w2, workerStep snapshotEngine w.pending.length (Seek d w [target, handler]).2
        = Except.ok w2 ∧
      w2.calls = w.calls ++ [EngineCall.Seek (d.JsToSlice target)] ∧
      ((∃ kv ∈ entries, Slice.le (d.JsToSlice target) kv.1 = true) →
        ∃ kv ∈ entries, Slice.le (d.JsToSlice target) kv.1 = true ∧
          (∀ other ∈ entries, Slice.le (d.JsToSlice target) other.1 = true →
            Slice.le kv.1 other.1 = true) ∧
          (Valid snapshotEngine w2 []).1 = Except.ok (JsValue.boolean true) ∧
          (key snapshotEngine w2 []).1 = Except.ok (JsValue.buffer kv.1)) ∧
      ((∃ kv ∈ entries, kv.1 = d.JsToSlice target) →
        (Valid snapshotEngine w2 []).1 = Except.ok (JsValue.boolean true) ∧
        (key snapshotEngine w2 []).1 = Except.ok (JsValue.buffer (d.JsToSlice target))) ∧
      ((∀ kv ∈ entries, Slice.le (d.JsToSlice target) kv.1 = false) →
        (Valid snapshotEngine w2 []).1 = Except.ok (JsValue.boolean false)) := by
  obtain ⟨w2, hw2, hcalls, hit⟩ := worker_after_seek d w target handler entries pos hopen
  have hfound : ∀ kv, kv ∈ entries → Slice.le (d.JsToSlice target) kv.1 = true →
      ∃ found ∈ entries, Slice.le (d.JsToSlice target) found.1 = true ∧
        (∀ other ∈ entries, Slice.le (d.JsToSlice target) other.1 = true →
          Slice.le found.1 other.1 = true) ∧
        (Valid snapshotEngine w2 []).1 = Except.ok (JsValue.boolean true) ∧
        (key snapshotEngine w2 []).1 = Except.ok (JsValue.buffer found.1) := by
    intro kv hmem hle
    obtain ⟨found, hf⟩ := find_first_isSome _ entries kv hmem hle
    obtain ⟨hm, hl, hmin⟩ := find_first_is_least _ entries hsorted found hf
    refine ⟨found, hm, hl, hmin, ?_, ?_⟩
    · simp [Valid, hit, hf, snapshotEngine]
    · simp [key, hit, hf, snapshotEngine, Bufferize]
  refine ⟨w2, hw2, hcalls, ?_, ?_, ?_⟩
  · rintro ⟨kv, hmem, hle⟩
    exact hfound kv hmem hle
  · rintro ⟨kv, hmem, hkey⟩
    have hle : Slice.le (d.JsToSlice target) kv.1 = true := by
      rw [hkey]; exact Slice.le_self _
    obtain ⟨found, _, hl, hmin, hv, hk⟩ := hfound kv hmem hle
    have hback : Slice.le found.1 (d.JsToSlice target) = true := by
      have := hmin kv hmem hle
      rwa [hkey] at this
    have heq : found.1 = d.JsToSlice target := Slice.eq_of_le_of_le _ _ hback hl
    rw [heq] at hk
    exact ⟨hv, hk⟩
  · intro hnone
    have hf : entries.find? (fun x => Slice.le (d.JsToSlice target) x.1) = none := by
      apply List.find?_eq_none.mpr
      intro x hx
      simp [hnone x hx]
    simp [Valid, hit, hf, snapshotEngine]

theorem seek_positions_at_smallest_key_not_before_target_witness :
    abcWorld.self.it = some { entries := abcEntries, pos := none } ∧
    SnapshotIter.Ordered abcEntries ∧
    ∃ w2, workerStep snapshotEngine abcWorld.pending.length
        (Seek sampleDecls abcWorld [JsValue.buffer [98, 98], JsValue.function 7]).2
        = Except.ok w2 ∧
      w2.calls = abcWorld.calls ++ [EngineCall.Seek [98, 98]] :=
  ⟨rfl, by decide,
   (seek_positions_at_smallest_key_not_before_target sampleDecls abcWorld
      (JsValue.buffer [98, 98]) (JsValue.function 7) abcEntries none rfl
      (by decide)).imp (fun _ h => ⟨h.1, h.2.1⟩)⟩

end NodeLeveldb
